import Mathlib

/-!
Verification of the naming classification and rename-planning core of the
ADNI2BIDS repository.

The classifier `map_modality_to_bids` embeds
`ADNI2BIDSConverter.map_modality_to_bids` from `adni2bids_converter.py`; the
two static tables embed the dictionaries built in
`ADNI2BIDSConverter.__init__`, in literal order.  Python dictionaries preserve
insertion order and neither literal contains a duplicate key, so an
association list with first-match lookup models them exactly.  Dictionary
subscripts are modelled as fallible (`Except`), so that "never raises" is a
provable property of the control flow rather than an artefact of the
embedding.

The rename planner `plan_renames` and the executor `execute_renames` embed the
functions of the same names from `fix_bids_naming.py`.  The filesystem is
modelled as a duplicate-free list of file paths; `os.path.exists` is list
membership, `shutil.move` removes the source path and adds the destination
path.  Python's `enumerate(xs, start)` is `List.enumFrom start xs`, and
`sorted(xs, key)` is `List.insertionSort` over the key order: Python's sort is
specified to be a stable sort by the key, and every stable sort by the same
(total, transitive) key order computes the same list, so the structurally
recursive stable insertion sort is an exact model.

Python's string primitives (`in`, `.upper()`, `.replace`, `.split`, string
`<`) are given structurally recursive char-list implementations with the
documented Python semantics, so that every definition here evaluates inside
the kernel (`rfl`/`decide`) on concrete inputs.
-/

namespace ADNI2BIDS

/-- Helper for `containsStr`: does `needle` occur as a contiguous sublist? -/
def strHasInfix (needle : List Char) : List Char → Bool
  | [] => needle.isEmpty
  | c :: rest => needle.isPrefixOf (c :: rest) || strHasInfix needle rest

/-- Python's substring test `needle in hay`: `needle` occurs contiguously in
`hay` (the empty needle is a member of every string in Python). -/
def containsStr (hay needle : String) : Bool :=
  strHasInfix needle.data hay.data

/-- Python's `s.upper()`, restricted to the per-character map (the table keys
and directory names are ASCII, where the two coincide). -/
def strUpper (s : String) : String :=
  ⟨s.data.map Char.toUpper⟩

/-- The `modality_mapping` dictionary of `ADNI2BIDSConverter.__init__`
(`adni2bids_converter.py`, lines 67-227), in literal order. -/
def modality_mapping : List (String × String) := [
  ("MPRAGE", "anat"),
  ("MP-RAGE", "anat"),
  ("Accelerated_Sagittal_MPRAGE", "anat"),
  ("Accelerated_Sagittal_MPRAGE__MSV21_", "anat"),
  ("Accelerated_Sagittal_MPRAGE__MSV22_", "anat"),
  ("Accelerated_Sagittal_MPRAGE_ND", "anat"),
  ("Sagittal_3D_Accelerated_MPRAGE", "anat"),
  ("MPRAGE_GRAPPA2", "anat"),
  ("MPRAGE_SENSE2", "anat"),
  ("Accelerated_Sag_IR-FSPGR", "anat"),
  ("Accelerated_Sagittal_IR-FSPGR", "anat"),
  ("Sag_IR-FSPGR", "anat"),
  ("Sag_IR-SPGR", "anat"),
  ("Accelerated_Sag_IR-SPGR", "anat"),
  ("MP-RAGE_REPEAT", "anat"),
  ("IR-FSPGR-Repeat", "anat"),
  ("REPEAT_SAG_3D_MP_RAGE", "anat"),
  ("REPEAT_SAG_3D_MP_RAGE_NO_ANGLE", "anat"),
  ("MP_RAGE_SAGITTAL_REPEAT", "anat"),
  ("MP_RAGE_SAGITTAL", "anat"),
  ("SAG_MPRAGE_NO_ANGLE", "anat"),
  ("SAG_MPRAGE_GRAPPA2_NO_ANGLE", "anat"),
  ("SAG_3D_MPRAGE", "anat"),
  ("SAG_3D_MPRAGE_NO_ANGLE", "anat"),
  ("IR-SPGR", "anat"),
  ("IR-SPGR_w_acceleration", "anat"),
  ("IR-FSPGR", "anat"),
  ("IR-FSPGR__replaces_MP-Rage_", "anat"),
  ("MP-RAGE-Repeat", "anat"),
  ("MPRAGE_Repeat", "anat"),
  ("MP-RAGE-REPEAT", "anat"),
  ("MPRAGE_repeat", "anat"),
  ("CS_Sagittal_MPRAGE__MSV22_", "anat"),
  ("Accelerated_Sagittal_MPRAGE_REPEAT", "anat"),
  ("Accelerated_Sagittal_MPRAGE_repeat", "anat"),
  ("Accelerated_Sagittal_MPRAGE_MSV21", "anat"),
  ("Sagittal_3D_Accelerated_MPRAGE__MSV21_", "anat"),
  ("Sagittal_3D_Accelerated_MPRAGE_REPEAT", "anat"),
  ("Accelerated_Sagittal_MPRAGE_MPR_Cor", "anat"),
  ("Accelerated_Sagittal_MPRAGE_MPR_Tra", "anat"),
  ("REPEAT_SAG_3D_MPRAGE", "anat"),
  ("Accelerated_SAG_IR-SPGR", "anat"),
  ("Sag_IR-SPGR-REPEAT", "anat"),
  ("HS_Sagittal_MPRAGE__MSV22_", "anat"),
  ("MPRAGE_S2_DIS2D", "anat"),
  ("3D_T1_SAG", "anat"),
  ("3D_MPRAGE", "anat"),
  ("VWIP_Coronal_3D_Accelerated_MPRAGE", "anat"),
  ("Sagittal_3D_FLAIR", "anat"),
  ("Sagittal_3D_FLAIR__MSV22_", "anat"),
  ("Sagittal_3D_FLAIR__MSV23_", "anat"),
  ("Axial_FLAIR", "anat"),
  ("Sagittal_3D_T2_SPACE__MSV21_", "anat"),
  ("Sagittal_3D_T2_Vista__MSV21_", "anat"),
  ("CS_Sagittal_3D_T2_Vista__MSV24_", "anat"),
  ("Sagittal_3D_T2_SPACE_MSV21", "anat"),
  ("AXIAL_FLAIR", "anat"),
  ("FLAIR", "anat"),
  ("t2_flair_SAG", "anat"),
  ("Sagittal_3D_FLAIR_MSV33", "anat"),
  ("Sagittal_3D_FLAIR_MPR_Cor", "anat"),
  ("Sagittal_3D_FLAIR_MPR_Tra", "anat"),
  ("CS_Sagittal_3D_FLAIR__MSV24_", "anat"),
  ("Sagittal_3D_FLAIR__MSV23__RPT", "anat"),
  ("Sagittal_3D_FLAIR_Repeat", "anat"),
  ("Axial_3D_FLAIR", "anat"),
  ("Axial_rsfMRI__Eyes_Open_", "func"),
  ("Axial_rsfMRI__EYES_OPEN_", "func"),
  ("Axial_fcMRI__EYES_OPEN_", "func"),
  ("Axial_fcMRI__Eyes_Open_", "func"),
  ("Axial_MB_rsfMRI__Eyes_Open_", "func"),
  ("Axial_HB_rsfMRI__Eyes_Open___MSV22_", "func"),
  ("Axial_HB_rsfMRI__Eyes_Open_", "func"),
  ("Resting_State_fMRI", "func"),
  ("Extended_Resting_State_fMRI", "func"),
  ("Axial_fcMRI", "func"),
  ("Axial_MB_rsfMRI__EYES_OPEN___MSV22_", "func"),
  ("Axial_rsfMRI__Eyes_Open__MSV21_", "func"),
  ("Axial_rsfMRI__Eyes_Open___MSV21", "func"),
  ("Axial_rsfMRI__Eyes_Open___MSV21_", "func"),
  ("Axial_fcMRI__EYES_OPEN__REPEAT", "func"),
  ("AXIAL_RS_fMRI__EYES_OPEN_", "func"),
  ("Axial_MB_rsfMRI_AP", "func"),
  ("Extended_AXIAL_rsfMRI_EYES_OPEN", "func"),
  ("Axial_RESTING_fcMRI__EYES_OPEN_", "func"),
  ("Axial_-_Advanced_fMRI_64_Channel", "func"),
  ("epi_2s_resting_state", "func"),
  ("Axial_MB_DTI_PA__MSV21_", "dwi"),
  ("Axial_MB_DTI_AP__MSV21_", "dwi"),
  ("Axial_HB_dMRI__MS21_", "dwi"),
  ("Axial_MB_dMRI_PA__MSV21_", "dwi"),
  ("Axial_MB_dMRI_AP__MSV21_", "dwi"),
  ("Axial_DTI", "dwi"),
  ("Axial_DTI__MSV21_", "dwi"),
  ("Axial_MB_dMRI_A__P__MSV21_", "dwi"),
  ("Axial_MB_dMRI_P__A__MSV21_", "dwi"),
  ("Axial_dMRI__MSV21_", "dwi"),
  ("Axial_MB_DTI", "dwi"),
  ("Axial_DTI__MSV20_", "dwi"),
  ("Axial_DTI_MSV21", "dwi"),
  ("Axial_Field_Mapping", "fmap"),
  ("Field_Mapping", "fmap"),
  ("WIP_Field_Mapping", "fmap"),
  ("Field_Mapping_REPEAT", "fmap"),
  ("Field_Mapping_repeat", "fmap"),
  ("Perfusion_Weighted", "perf"),
  ("ASL_Perfusion", "perf"),
  ("Axial_2D_PASL", "perf"),
  ("Axial_3D_PASL", "perf"),
  ("SOURCE_-_Axial_2D_PASL", "perf"),
  ("Axial_3D_PASL__Eyes_Open_", "perf"),
  ("WIP_SOURCE_-_Axial_3D_pCASL__Eyes_Open_", "perf"),
  ("AAHead_Scout", "exclude"),
  ("AAHead_Scout_MPR_sag", "exclude"),
  ("AAHead_Scout_MPR_cor", "exclude"),
  ("AAHead_Scout_MPR_tra", "exclude"),
  ("Calibration_Scan", "exclude"),
  ("relCBF", "exclude"),
  ("MoCoSeries", "exclude"),
  ("Cal_8HRBRAIN", "exclude"),
  ("B1-Calibration_PA", "exclude"),
  ("B1-Calibration_Body", "exclude"),
  ("B1-calibration_Body", "exclude"),
  ("B1-calibration_Head", "exclude"),
  ("SAG_B1_CALIBRATION_BODY", "exclude"),
  ("SAG_B1_CALIBRATION_HEAD", "exclude"),
  ("SAG_B1_CALIBRATION_BODY_REPEAT", "exclude"),
  ("repeat_SAG_B1_CALIBRATION_BODY", "exclude"),
  ("Cal_Head_24", "exclude"),
  ("ASSET_Cal", "exclude"),
  ("Axial_MB_DTI_TENSOR_B0", "exclude"),
  ("Axial_MB_DTI_FA", "exclude"),
  ("Axial_MB_DTI_ADC", "exclude"),
  ("Axial_MB_DTI_TRACEW", "exclude"),
  ("Axial_T2_Star-Repeated_with_exact_copy_of_FLAIR", "exclude"),
  ("CORONAL", "exclude"),
  ("Cal_RM_8HRBRAIN", "exclude"),
  ("AXIAL_RFORMAT_1", "exclude"),
  ("AAHead_Scout_64ch-head-coil", "exclude"),
  ("AAHead_Scout_64ch-head-coil_MPR_sag", "exclude"),
  ("B1-Calibration", "exclude"),
  ("Cal_Head+Neck_40", "exclude"),
  ("act_te_=_6000_B1-Calibration_Body", "exclude"),
  ("act_te_=_6000_B1-Calibration_PA", "exclude"),
  ("Localizer", "exclude"),
  ("Localizer_MPR_sag", "exclude")]

/-- The `suffix_mapping` dictionary of `ADNI2BIDSConverter.__init__`
(`adni2bids_converter.py`, lines 230-285), in literal order. -/
def suffix_mapping : List (String × List (String × String)) := [
  ("anat", [
    ("MPRAGE", "T1w"),
    ("MP-RAGE", "T1w"),
    ("Accelerated_Sagittal_MPRAGE", "T1w"),
    ("Accelerated_Sagittal_MPRAGE__MSV21_", "T1w"),
    ("Accelerated_Sagittal_MPRAGE__MSV22_", "T1w"),
    ("Accelerated_Sagittal_MPRAGE_ND", "T1w"),
    ("Sagittal_3D_Accelerated_MPRAGE", "T1w"),
    ("MPRAGE_GRAPPA2", "T1w"),
    ("MPRAGE_SENSE2", "T1w"),
    ("Accelerated_Sag_IR-FSPGR", "T1w"),
    ("Accelerated_Sagittal_IR-FSPGR", "T1w"),
    ("Sag_IR-FSPGR", "T1w"),
    ("Sag_IR-SPGR", "T1w"),
    ("Accelerated_Sag_IR-SPGR", "T1w"),
    ("MP-RAGE_REPEAT", "T1w"),
    ("IR-FSPGR-Repeat", "T1w"),
    ("IR-FSPGR", "T1w"),
    ("IR-SPGR", "T1w"),
    ("Sagittal_3D_FLAIR", "FLAIR"),
    ("Sagittal_3D_FLAIR__MSV22_", "FLAIR"),
    ("Sagittal_3D_FLAIR__MSV23_", "FLAIR"),
    ("Axial_FLAIR", "FLAIR"),
    ("AXIAL_FLAIR", "FLAIR"),
    ("FLAIR", "FLAIR"),
    ("t2_flair_SAG", "FLAIR"),
    ("Axial_3D_FLAIR", "FLAIR"),
    ("Sagittal_3D_T2_SPACE__MSV21_", "T2w"),
    ("Sagittal_3D_T2_Vista__MSV21_", "T2w"),
    ("CS_Sagittal_3D_T2_Vista__MSV24_", "T2w"),
    ("Sagittal_3D_T2_SPACE_MSV21", "T2w"),
    ("default", "T1w")]),
  ("func", [
    ("default", "task-rest_bold")]),
  ("dwi", [
    ("Axial_MB_DTI_PA__MSV21_", "dir-PA_dwi"),
    ("Axial_MB_DTI_AP__MSV21_", "dir-AP_dwi"),
    ("Axial_MB_dMRI_PA__MSV21_", "dir-PA_dwi"),
    ("Axial_MB_dMRI_AP__MSV21_", "dir-AP_dwi"),
    ("Axial_MB_dMRI_A__P__MSV21_", "dir-AP_dwi"),
    ("Axial_MB_dMRI_P__A__MSV21_", "dir-PA_dwi"),
    ("default", "dwi")]),
  ("fmap", [
    ("default", "fieldmap")]),
  ("perf", [
    ("default", "asl")])]

/-- A Python dictionary subscript `tbl[k]`: the value when the key is present,
a `KeyError` otherwise. -/
def dictGet (tbl : List (String × String)) (k : String) : Except String String :=
  match List.lookup k tbl with
  | some v => Except.ok v
  | none => Except.error ("KeyError: " ++ k)

/-- Subscript into the two-level suffix table. -/
def dictGetTable (tbl : List (String × List (String × String))) (k : String) :
    Except String (List (String × String)) :=
  match List.lookup k tbl with
  | some v => Except.ok v
  | none => Except.error ("KeyError: " ++ k)

/-- The two-way case-normalized containment test of the fallback loop:
`adni_name.upper() in modality_upper or modality_upper in adni_name.upper()`. -/
def substrTest (adni_name modality_upper : String) : Bool :=
  containsStr modality_upper (strUpper adni_name) || containsStr (strUpper adni_name) modality_upper

/-- The fallback loop of `map_modality_to_bids` (lines 353-361): scan the
table in order, skip entries mapped to `exclude`, and return the first value
whose key passes the two-way containment test against the upper-cased input. -/
def findFallback : List (String × String) → String → Option String
  | [], _ => none
  | (adni_name, bids_name) :: rest, modality_upper =>
    if bids_name == "exclude" then findFallback rest modality_upper
    else if substrTest adni_name modality_upper then some bids_name
    else findFallback rest modality_upper

/-- The suffix-resolution tail of `map_modality_to_bids` (lines 367-378):
exact match in the category's sub-table, else the sub-table's `default`
entry, else the suffix `unknown` (also when the category has no sub-table). -/
def suffixStep (modality_dir bids_modality : String) :
    Except String (Option (String × String)) :=
  if (List.lookup bids_modality suffix_mapping).isSome then do
    let suffix_map ← dictGetTable suffix_mapping bids_modality
    if (List.lookup modality_dir suffix_map).isSome then do
      let s ← dictGet suffix_map modality_dir
      pure (some (bids_modality, s))
    else if (List.lookup "default" suffix_map).isSome then do
      let s ← dictGet suffix_map "default"
      pure (some (bids_modality, s))
    else pure (some (bids_modality, "unknown"))
  else pure (some (bids_modality, "unknown"))

/-- The method `ADNI2BIDSConverter.map_modality_to_bids` (lines 340-378).  `Except.ok
none` models the Python return value `(None, None)`; `Except.ok (some (c,
s))` models `(c, s)`. -/
def map_modality_to_bids (modality_dir : String) :
    Except String (Option (String × String)) :=
  if (List.lookup modality_dir modality_mapping).isSome then do
    let bids_modality ← dictGet modality_mapping modality_dir
    if bids_modality == "exclude" then pure none
    else suffixStep modality_dir bids_modality
  else
    match findFallback modality_mapping (strUpper modality_dir) with
    | some bids_modality => suffixStep modality_dir bids_modality
    | none => Except.ok (some ("other", "unknown"))

/-! Rename planner and executor, from `fix_bids_naming.py`. -/

/-- Python's `s.replace(pat, rep)` on char lists, replacing every
non-overlapping occurrence from the left; the fuel argument (instantiated with
the list length, an upper bound on the number of steps) makes the recursion
structural. -/
def replAux (pat rep : List Char) : Nat → List Char → List Char
  | _, [] => []
  | 0, s => s
  | fuel + 1, c :: rest =>
    if pat.isPrefixOf (c :: rest) then rep ++ replAux pat rep fuel ((c :: rest).drop pat.length)
    else c :: replAux pat rep fuel rest

/-- Python's `s.replace(pat, rep)`.  An empty pattern inserts `rep` at every
character boundary in Python. -/
def pyReplace (s pat rep : String) : String :=
  if pat.data.isEmpty then ⟨rep.data ++ s.data.flatMap (fun c => c :: rep.data)⟩
  else ⟨replAux pat.data rep.data s.data.length s.data⟩

/-- Helper for `pySplitFirst`: the text before the first occurrence of
`sep` (the whole text when `sep` does not occur). -/
def splitHeadAux (sep : List Char) : Nat → List Char → List Char
  | _, [] => []
  | 0, s => s
  | fuel + 1, c :: rest =>
    if sep.isPrefixOf (c :: rest) then [] else c :: splitHeadAux sep fuel rest

/-- Python's `s.split(sep)[0]` for a nonempty separator: `split` always
yields a nonempty list whose head is the text before the first separator
occurrence, or the whole string when the separator is absent. -/
def pySplitFirst (s sep : String) : String :=
  if sep.data.isEmpty then s else ⟨splitHeadAux sep.data s.data.length s.data⟩

/-- Model of `pathlib.Path(p).name` and `os.path.basename(p)`: the component after the
last slash. -/
def pathName (p : String) : String :=
  ⟨(p.data.reverse.takeWhile (· ≠ '/')).reverse⟩

/-- Model of `pathlib.Path(p).parent` as a string: the text before the last slash, or
`.` for a bare filename. -/
def pathParent (p : String) : String :=
  if p.data.contains '/' then ⟨((p.data.reverse.dropWhile (· ≠ '/')).tail).reverse⟩ else "."

/-- Model of `str(dir / name)` for a parent produced by `pathParent`. -/
def pathJoin (dir name : String) : String :=
  if dir == "." then name else dir ++ "/" ++ name

/-- Python's `f"{i:02d}"` for a nonnegative argument: zero-pad to (minimum)
width two. -/
def pad2 (i : Nat) : String :=
  if i < 10 then "0" ++ toString i else toString i

/-- One member of a NamingIssue group, as stored in the issues JSON consumed
by `plan_renames` (`fix_bids_naming.py`): keys `full_path`, `filename`,
`suffix` (the letter suffix), `base_name`. -/
structure FileInfo where
  full_path : String
  filename : String
  suffix : String
  base_name : String
deriving DecidableEq

/-- One entry of the rename plan built by `plan_renames`
(`fix_bids_naming.py`, lines 53-64 and analogues). -/
structure RenameEntry where
  old_path : String
  new_path : String
  old_filename : String
  new_filename : String
  subject : String
  session : String
  modality : String
  base_name : String
  old_suffix : String
  new_suffix : String
deriving DecidableEq

/-- Lexicographic comparison of char lists: Python's string order, used by
`sorted(file_list, key=lambda x: x['suffix'])`. -/
def charListLE : List Char → List Char → Bool
  | [], _ => true
  | _ :: _, [] => false
  | a :: as, b :: bs => a < b || (a == b && charListLE as bs)

/-- The sort key order of `plan_renames` line 38: compare members by their
`suffix` field, lexicographically. -/
def suffixLE (x y : FileInfo) : Prop :=
  charListLE x.suffix.data y.suffix.data = true

instance : DecidableRel suffixLE := fun _ _ => instDecidableEqBool _ _

/-- The letter-file loop body of `plan_renames` (lines 86-130): the plan
entry for one letter-suffixed file paired with the entry for its metadata
sidecar when one exists on disk (`fs`). -/
def fileEntries (fs : List String) (subject_id session_id modality base_name : String)
    (p : Nat × FileInfo) : List RenameEntry :=
  let i := p.1
  let file_info := p.2
  let old_path := file_info.full_path
  let old_filename := file_info.filename
  let base_part := pyReplace old_filename (base_name ++ file_info.suffix) base_name
  let new_filename := pyReplace base_part ("_" ++ base_name ++ ".nii.gz")
      ("_" ++ base_name ++ "_" ++ pad2 i ++ ".nii.gz")
  let new_path := pathJoin (pathParent old_path) new_filename
  let json_old_path := pyReplace old_path ".nii.gz" ".json"
  let json_new_path := pyReplace new_path ".nii.gz" ".json"
  let volEntry : RenameEntry :=
    { old_path := old_path, new_path := new_path, old_filename := old_filename,
      new_filename := new_filename, subject := subject_id, session := session_id,
      modality := modality, base_name := base_name,
      old_suffix := file_info.suffix, new_suffix := pad2 i }
  if fs.contains json_old_path then
    [volEntry,
     { old_path := json_old_path, new_path := json_new_path,
       old_filename := pathName json_old_path, new_filename := pathName json_new_path,
       subject := subject_id, session := session_id, modality := modality,
       base_name := base_name, old_suffix := file_info.suffix, new_suffix := pad2 i }]
  else [volEntry]

/-- Lines 43-44 of `plan_renames`: the `{subject_session}` prefix recovered
from the sample filename (with the hard-coded `T1w` special case), and the
unsuffixed base filename derived from it. -/
def subjectSession (base_name sample_name : String) : String :=
  if containsStr sample_name "T1w" then pySplitFirst sample_name "_T1w"
  else pySplitFirst sample_name ("_" ++ base_name)

/-- Lines 41-45 of `plan_renames`: the path at which an unsuffixed base file
for this group would live, built from the first sorted member. -/
def baseFilePath (base_name : String) (sample : FileInfo) : String :=
  pathJoin (pathParent sample.full_path)
    (subjectSession base_name (pathName sample.full_path) ++ "_" ++ base_name ++ ".nii.gz")

/-- Lines 48-81 of `plan_renames`: the plan entries for a pre-existing
unsuffixed base file (suffix `01`), paired with its sidecar entry when the
sidecar exists on disk. -/
def baseEntries (fs : List String) (subject_id session_id modality base_name : String)
    (sample : FileInfo) : List RenameEntry :=
  let directory := pathParent sample.full_path
  let subject_session := subjectSession base_name (pathName sample.full_path)
  let base_filename := subject_session ++ "_" ++ base_name ++ ".nii.gz"
  let base_file_path := pathJoin directory base_filename
  let base_new_filename := subject_session ++ "_" ++ base_name ++ "_01.nii.gz"
  let base_new_path := pathJoin directory base_new_filename
  let volEntry : RenameEntry :=
    { old_path := base_file_path, new_path := base_new_path,
      old_filename := base_filename, new_filename := base_new_filename,
      subject := subject_id, session := session_id, modality := modality,
      base_name := base_name, old_suffix := "", new_suffix := "01" }
  let base_json_path := pyReplace base_file_path ".nii.gz" ".json"
  volEntry ::
    (if fs.contains base_json_path then
      [{ old_path := base_json_path,
         new_path := pyReplace base_new_path ".nii.gz" ".json",
         old_filename := pyReplace base_filename ".nii.gz" ".json",
         new_filename := pyReplace base_new_filename ".nii.gz" ".json",
         subject := subject_id, session := session_id, modality := modality,
         base_name := base_name, old_suffix := "", new_suffix := "01" }]
    else [])

/-- The body of the `for base_name, file_list` loop of `plan_renames` (lines
36-130): sort the group by letter suffix, emit entries for a pre-existing
unsuffixed base file, then number the letter files from `start_num` upward,
pairing each with its sidecar when one exists on disk (`fs`). -/
def planGroup (fs : List String) (subject_id session_id modality base_name : String)
    (file_list : List FileInfo) : List RenameEntry :=
  let sorted_files := List.insertionSort suffixLE file_list
  match sorted_files with
  | [] => []
  | sample :: _ =>
    let base_file_exists := fs.contains (baseFilePath base_name sample)
    let start_num := if base_file_exists then 2 else 1
    (if base_file_exists then
      baseEntries fs subject_id session_id modality base_name sample
    else []) ++
      (List.enumFrom start_num sorted_files).flatMap
        (fileEntries fs subject_id session_id modality base_name)

/-- One step of the `defaultdict(list)` grouping of lines 31-33: append the
file to its base name's group, first-seen key order. -/
def addToGroups (groups : List (String × List FileInfo)) (f : FileInfo) :
    List (String × List FileInfo) :=
  match groups with
  | [] => [(f.base_name, [f])]
  | (k, grp) :: rest =>
    if k == f.base_name then (k, grp ++ [f]) :: rest
    else (k, grp) :: addToGroups rest f

/-- Lines 31-33 of `plan_renames`: group the files of one modality by their
`base_name`, keys in first-occurrence order, members in original order. -/
def groupByBase (files : List FileInfo) : List (String × List FileInfo) :=
  files.foldl addToGroups []

/-- The function `plan_renames` (`fix_bids_naming.py`, lines 20-132).  The issues input is
the subject → session → modality → files nesting of the JSON file; `fs` is
the set of paths that exist on disk. -/
def plan_renames (fs : List String)
    (issues : List (String × List (String × List (String × List FileInfo)))) :
    List RenameEntry :=
  issues.flatMap fun sub =>
    sub.2.flatMap fun ses =>
      ses.2.flatMap fun mo =>
        (groupByBase mo.2).flatMap fun grp =>
          planGroup fs sub.1 ses.1 mo.1 grp.1 grp.2

/-- The state threaded through `execute_renames`: the filesystem (list of
existing file paths) plus the `success_count`, `error_count`, and `errors`
accumulators. -/
structure ExecResult where
  fs : List String
  success_count : Nat
  error_count : Nat
  errors : List String
deriving DecidableEq

/-- The loop body of `execute_renames` (`fix_bids_naming.py`, lines 167-195):
check the source exists, check the destination does not, then move (or, in
dry-run mode, only count). -/
def execStep (dry_run : Bool) (st : ExecResult) (item : RenameEntry) : ExecResult :=
  if !(st.fs.contains item.old_path) then
    { st with errors := st.errors ++ ["Source file does not exist: " ++ item.old_path],
              error_count := st.error_count + 1 }
  else if st.fs.contains item.new_path then
    { st with errors := st.errors ++ ["Target file already exists: " ++ item.new_path],
              error_count := st.error_count + 1 }
  else if !dry_run then
    { st with fs := st.fs.erase item.old_path ++ [item.new_path],
              success_count := st.success_count + 1 }
  else
    { st with success_count := st.success_count + 1 }

/-- The function `execute_renames` (`fix_bids_naming.py`, lines 155-197), starting from
the filesystem `fs`.  `shutil.move` is modelled as removing the source path
and appending the destination path; on a duplicate-free filesystem list this
is exactly a rename. -/
def execute_renames (rename_plan : List RenameEntry) (dry_run : Bool) (fs : List String) :
    ExecResult :=
  rename_plan.foldl (execStep dry_run)
    { fs := fs, success_count := 0, error_count := 0, errors := [] }


theorem lookup_mem {k v : String} : ∀ {tbl : List (String × String)},
    List.lookup k tbl = some v → (k, v) ∈ tbl
  | [], h => by simp [List.lookup] at h
  | (a, b) :: rest, h => by
    cases hk : (k == a) with
    | false =>
      rw [List.lookup_cons, hk] at h
      exact List.mem_cons_of_mem _ (lookup_mem h)
    | true =>
      rw [List.lookup_cons, hk] at h
      cases h
      have hka : k = a := by simpa using hk
      subst hka
      exact List.mem_cons_self _ _

/-- The predicate of the documented fallback policy: a non-excluded table
entry whose key matches the input by case-insensitive two-way substring
containment. -/
def fallbackPred (modality_dir : String) (kv : String × String) : Bool :=
  !(kv.2 == "exclude") && substrTest kv.1 (strUpper modality_dir)

theorem findFallback_eq_find? (u : String) : ∀ tbl : List (String × String),
    findFallback tbl u =
      Option.map Prod.snd (tbl.find? fun kv => !(kv.2 == "exclude") && substrTest kv.1 u)
  | [] => rfl
  | (a, b) :: rest => by
    cases hb : (b == "exclude") with
    | true =>
      rw [List.find?_cons]
      simp only [findFallback, hb, if_true]
      simp only [hb, Bool.not_true, Bool.false_and]
      exact findFallback_eq_find? u rest
    | false =>
      rw [List.find?_cons]
      simp only [findFallback, hb, if_false, Bool.not_false, Bool.true_and]
      cases hs : substrTest a u with
      | true => simp [hs]
      | false => simpa [hs] using findFallback_eq_find? u rest

theorem suffixStep_char (d b c s : String)
    (h : suffixStep d b = Except.ok (some (c, s))) :
    c = b ∧
    (match List.lookup c suffix_mapping with
     | none => s = "unknown"
     | some suffix_map =>
       match List.lookup d suffix_map with
       | some v => s = v
       | none =>
         match List.lookup "default" suffix_map with
         | some dv => s = dv
         | none => s = "unknown") := by
  unfold suffixStep at h
  cases hsm : List.lookup b suffix_mapping with
  | none =>
    rw [hsm] at h
    simp only [Option.isSome_none, Bool.false_eq_true, if_false, pure, Except.pure] at h
    cases h
    simp [hsm]
  | some m =>
    rw [hsm] at h
    simp only [Option.isSome_some, if_true, dictGetTable, hsm, bind, Except.bind] at h
    cases hd : List.lookup d m with
    | some v =>
      rw [hd] at h
      simp only [Option.isSome_some, if_true, dictGet, hd] at h
      cases h
      simp [hsm, hd]
    | none =>
      rw [hd] at h
      simp only [Option.isSome_none, Bool.false_eq_true, if_false] at h
      cases hdef : List.lookup "default" m with
      | some dv =>
        rw [hdef] at h
        simp only [Option.isSome_some, if_true, dictGet, hdef] at h
        cases h
        simp [hsm, hd, hdef]
      | none =>
        rw [hdef] at h
        simp only [Option.isSome_none, Bool.false_eq_true, if_false, pure, Except.pure] at h
        cases h
        simp [hsm, hd, hdef]



theorem suffixStep_ok (d b : String) : ∃ s, suffixStep d b = Except.ok (some (b, s)) := by
  unfold suffixStep
  cases hsm : List.lookup b suffix_mapping with
  | none => exact ⟨"unknown", by simp [hsm, pure, Except.pure]⟩
  | some m =>
    simp only [hsm, Option.isSome_some, if_true, dictGetTable, bind, Except.bind]
    cases hd : List.lookup d m with
    | some v => exact ⟨v, by simp [hd, dictGet, pure, Except.pure]⟩
    | none =>
      simp only [hd, Option.isSome_none, Bool.false_eq_true, if_false]
      cases hdef : List.lookup "default" m with
      | some dv => exact ⟨dv, by simp [hdef, dictGet, pure, Except.pure]⟩
      | none => exact ⟨"unknown", by simp [hdef, pure, Except.pure]⟩

theorem findFallback_result {u v : String} : ∀ {tbl : List (String × String)},
    findFallback tbl u = some v → v ≠ "exclude" ∧ ∃ k, (k, v) ∈ tbl
  | [], h => by simp [findFallback] at h
  | (a, b) :: rest, h => by
    cases hb : (b == "exclude") with
    | true =>
      simp only [findFallback, hb, if_true] at h
      obtain ⟨hv, k, hk⟩ := findFallback_result h
      exact ⟨hv, k, List.mem_cons_of_mem _ hk⟩
    | false =>
      simp only [findFallback, hb, if_false] at h
      cases hs : substrTest a u with
      | true =>
        simp only [hs, if_true] at h
        cases h
        refine ⟨by simpa using hb, a, List.mem_cons_self _ _⟩
      | false =>
        simp only [hs, Bool.false_eq_true, if_false] at h
        obtain ⟨hv, k, hk⟩ := findFallback_result h
        exact ⟨hv, k, List.mem_cons_of_mem _ hk⟩

set_option maxRecDepth 10000 in
theorem modality_values : ∀ kv ∈ modality_mapping,
    kv.2 = "anat" ∨ kv.2 = "func" ∨ kv.2 = "dwi" ∨ kv.2 = "fmap" ∨ kv.2 = "perf" ∨
      kv.2 = "exclude" := by decide

/-- C9 helper: the classifier never reaches an error value. -/
theorem map_modality_never_error (d : String) :
    ∃ r, map_modality_to_bids d = Except.ok r := by
  unfold map_modality_to_bids
  cases hl : List.lookup d modality_mapping with
  | some v =>
    simp only [hl, Option.isSome_some, if_true, dictGet, bind, Except.bind]
    cases hv : (v == "exclude") with
    | true => exact ⟨none, by simp [hv, pure, Except.pure]⟩
    | false =>
      obtain ⟨s, hs⟩ := suffixStep_ok d v
      exact ⟨some (v, s), by simp [hv, hs]⟩
  | none =>
    simp only [hl, Option.isSome_none, Bool.false_eq_true, if_false]
    cases hf : findFallback modality_mapping (strUpper d) with
    | some b =>
      obtain ⟨s, hs⟩ := suffixStep_ok d b
      exact ⟨some (b, s), hs⟩
    | none => exact ⟨some ("other", "unknown"), rfl⟩

/-- Claim C9: the category classifier is total and never raises for any input
string: every run ends in `Except.ok`, and the worst case over all inputs is
the `unknown`-tagged result `("other", "unknown")` returned when neither an
exact nor a substring match exists. -/
theorem classifier_total_never_raises (d : String) :
    (∃ r, map_modality_to_bids d = Except.ok r) ∧
    (List.lookup d modality_mapping = none →
      findFallback modality_mapping (strUpper d) = none →
      map_modality_to_bids d = Except.ok (some ("other", "unknown"))) := by
  refine ⟨map_modality_never_error d, fun hl hf => ?_⟩
  unfold map_modality_to_bids
  simp [hl, hf]

/-- Witness for claim C9: the totality statement evaluated at a concrete
unmatched name. -/
theorem classifier_total_never_raises_witness :
    map_modality_to_bids "Some_Totally_Novel_Sequence_2024" =
      Except.ok (some ("other", "unknown")) :=
  (classifier_total_never_raises "Some_Totally_Novel_Sequence_2024").2 (by decide) (by decide)

/-- Claim C10: the classifier never returns the literal category `exclude`: the
result is `(None, None)` or a pair whose category is one of `anat`, `func`,
`dwi`, `fmap`, `perf`, `other`. -/
theorem classifier_never_exclude (d : String) :
    map_modality_to_bids d = Except.ok none ∨
    ∃ c s, map_modality_to_bids d = Except.ok (some (c, s)) ∧ c ≠ "exclude" ∧
      (c = "anat" ∨ c = "func" ∨ c = "dwi" ∨ c = "fmap" ∨ c = "perf" ∨ c = "other") := by
  unfold map_modality_to_bids
  cases hl : List.lookup d modality_mapping with
  | some v =>
    simp only [hl, Option.isSome_some, if_true, dictGet, bind, Except.bind]
    cases hv : (v == "exclude") with
    | true => left; simp [hv, pure, Except.pure]
    | false =>
      right
      obtain ⟨s, hs⟩ := suffixStep_ok d v
      refine ⟨v, s, by simp [hv, hs], by simpa using hv, ?_⟩
      have hvals := modality_values (d, v) (lookup_mem hl)
      have hne : v ≠ "exclude" := by simpa using hv
      simp only at hvals
      rcases hvals with h | h | h | h | h | h <;> first
        | exact absurd h hne
        | tauto
  | none =>
    simp only [hl, Option.isSome_none, Bool.false_eq_true, if_false]
    cases hf : findFallback modality_mapping (strUpper d) with
    | some b =>
      right
      obtain ⟨hb, k, hk⟩ := findFallback_result hf
      obtain ⟨s, hs⟩ := suffixStep_ok d b
      refine ⟨b, s, hs, hb, ?_⟩
      have hvals := modality_values (k, b) hk
      simp only at hvals
      rcases hvals with h | h | h | h | h | h <;> first
        | exact absurd h hb
        | tauto
    | none => right; exact ⟨"other", "unknown", rfl, by decide, by simp⟩

/-- Claim C4: for a directory name with no exact match in the table, the
classifier scans the table in order, skips excluded-category keys, applies
case-insensitive two-way substring containment, and either continues with
the category of the first matching entry (never `exclude`) or, when no key
matches, returns `("other", "unknown")`. -/
theorem fallback_first_match_policy (d : String)
    (h : List.lookup d modality_mapping = none) :
    (match modality_mapping.find? (fallbackPred d) with
     | some kv => kv.2 ≠ "exclude" ∧ map_modality_to_bids d = suffixStep d kv.2 ∧
         ∃ s, map_modality_to_bids d = Except.ok (some (kv.2, s))
     | none => map_modality_to_bids d = Except.ok (some ("other", "unknown"))) := by
  have hmap : map_modality_to_bids d =
      match findFallback modality_mapping (strUpper d) with
      | some bids_modality => suffixStep d bids_modality
      | none => Except.ok (some ("other", "unknown")) := by
    unfold map_modality_to_bids
    simp [h]
  rw [findFallback_eq_find? (strUpper d) modality_mapping] at hmap
  have hpred : (fun kv : String × String => !(kv.2 == "exclude") && substrTest kv.1 (strUpper d))
      = fallbackPred d := by
    funext kv; rfl
  rw [hpred] at hmap
  cases hfind : modality_mapping.find? (fallbackPred d) with
  | none =>
    rw [hfind] at hmap
    simpa using hmap
  | some kv =>
    rw [hfind] at hmap
    have hp := List.find?_some hfind
    simp only [fallbackPred, Bool.and_eq_true, Bool.not_eq_eq_eq_not] at hp
    have hsuf : map_modality_to_bids d = suffixStep d kv.2 := by simpa using hmap
    refine ⟨?_, hsuf, ?_⟩
    · intro he
      rw [he] at hp
      simp at hp
    · obtain ⟨s, hs⟩ := suffixStep_ok d kv.2
      exact ⟨s, by rw [hsuf, hs]⟩
/-- Claim C4 witness: at the concrete unmapped name
`Some_Totally_Novel_Sequence_2024` no table key matches, so the classifier
returns `("other", "unknown")`. -/
theorem fallback_first_match_policy_witness :
    map_modality_to_bids "Some_Totally_Novel_Sequence_2024" =
      Except.ok (some ("other", "unknown")) :=
  fallback_first_match_policy "Some_Totally_Novel_Sequence_2024" (by decide)

/-- Claim C5: names that are keys of the table are classified by the exact-match
branch: `Axial_MB_DTI_PA__MSV21_` yields exactly `("dwi", "dir-PA_dwi")`, the
excluded key `AAHead_Scout` yields `(None, None)`, and no error is raised;
in general an exact hit with a non-`exclude` category bypasses the fallback
entirely. -/
theorem exact_match_classification :
    map_modality_to_bids "Axial_MB_DTI_PA__MSV21_" = Except.ok (some ("dwi", "dir-PA_dwi")) ∧
    List.lookup "Axial_MB_DTI_PA__MSV21_" modality_mapping = some "dwi" ∧
    map_modality_to_bids "AAHead_Scout" = Except.ok none ∧
    List.lookup "AAHead_Scout" modality_mapping = some "exclude" ∧
    (∀ d v, List.lookup d modality_mapping = some v →
      map_modality_to_bids d =
        if v = "exclude" then Except.ok none else suffixStep d v) := by
  refine ⟨by rfl, by rfl, by rfl, by rfl, fun d v hl => ?_⟩
  unfold map_modality_to_bids
  simp only [hl, Option.isSome_some, if_true, dictGet, bind, Except.bind]
  cases hv : (v == "exclude") with
  | true =>
    have : v = "exclude" := by simpa using hv
    simp [this, pure, Except.pure]
  | false =>
    have : ¬ v = "exclude" := by simpa using hv
    simp [hv, this]

/-- Claim C5 witness: the general exact-match clause applied at the key `MPRAGE`
(category `anat`). -/
theorem exact_match_classification_witness :
    map_modality_to_bids "MPRAGE" =
      (if ("anat" : String) = "exclude" then Except.ok none else suffixStep "MPRAGE" "anat") :=
  exact_match_classification.2.2.2.2 "MPRAGE" "anat" (by rfl)

/-- Claim C6: whenever the classifier resolves a category, the returned suffix is
determined by exact priority: the directory name's exact entry in that
category's suffix sub-table; else the sub-table's `default` entry; else
`unknown` (also when the category has no sub-table). -/
theorem suffix_priority (d c s : String)
    (h : map_modality_to_bids d = Except.ok (some (c, s))) :
    (match List.lookup c suffix_mapping with
     | none => s = "unknown"
     | some suffix_map =>
       match List.lookup d suffix_map with
       | some v => s = v
       | none =>
         match List.lookup "default" suffix_map with
         | some dv => s = dv
         | none => s = "unknown") := by
  unfold map_modality_to_bids at h
  cases hl : List.lookup d modality_mapping with
  | some v =>
    rw [hl] at h
    simp only [Option.isSome_some, if_true, dictGet, hl, bind, Except.bind] at h
    cases hv : (v == "exclude") with
    | true => rw [hv] at h; simp [pure, Except.pure] at h
    | false =>
      rw [hv] at h
      simp only [Bool.false_eq_true, if_false] at h
      obtain ⟨hc, hchar⟩ := suffixStep_char d v c s h
      exact hchar
  | none =>
    rw [hl] at h
    simp only [Option.isSome_none, Bool.false_eq_true, if_false] at h
    cases hf : findFallback modality_mapping (strUpper d) with
    | some b =>
      rw [hf] at h
      obtain ⟨hc, hchar⟩ := suffixStep_char d b c s h
      exact hchar
    | none =>
      rw [hf] at h
      cases h
      have : List.lookup "other" suffix_mapping = none := by rfl
      simp [this]

/-- Claim C6 witness: at `MPRAGE` the resolved category is `anat` and the suffix
`T1w` is the exact sub-table entry for `MPRAGE`. -/
theorem suffix_priority_witness :
    map_modality_to_bids "MPRAGE" = Except.ok (some ("anat", "T1w")) ∧
    ("T1w" : String) = "T1w" :=
  ⟨by rfl, suffix_priority "MPRAGE" "anat" "T1w" (by rfl)⟩

theorem charListLE_total : ∀ x y : List Char, charListLE x y = true ∨ charListLE y x = true
  | [], _ => Or.inl rfl
  | _ :: _, [] => Or.inr rfl
  | a :: as, b :: bs => by
    rcases lt_trichotomy a b with h | h | h
    · left; simp [charListLE, h]
    · subst h
      rcases charListLE_total as bs with ih | ih
      · left; simp [charListLE, ih]
      · right; simp [charListLE, ih]
    · right; simp [charListLE, h]

theorem charListLE_trans : ∀ x y z : List Char,
    charListLE x y = true → charListLE y z = true → charListLE x z = true
  | [], _, _, _, _ => rfl
  | _ :: _, [], _, h, _ => by simp [charListLE] at h
  | _ :: _, _ :: _, [], _, h => by simp [charListLE] at h
  | a :: as, b :: bs, c :: cs, h1, h2 => by
    simp only [charListLE, Bool.or_eq_true, Bool.and_eq_true, beq_iff_eq,
      decide_eq_true_eq] at h1 h2 ⊢
    rcases h1 with h1 | ⟨rfl, h1⟩
    · rcases h2 with h2 | ⟨rfl, h2⟩
      · exact Or.inl (lt_trans h1 h2)
      · exact Or.inl h1
    · rcases h2 with h2 | ⟨rfl, h2⟩
      · exact Or.inl h2
      · exact Or.inr ⟨rfl, charListLE_trans as bs cs h1 h2⟩

instance : IsTotal FileInfo suffixLE :=
  ⟨fun a b => charListLE_total a.suffix.data b.suffix.data⟩

instance : IsTrans FileInfo suffixLE :=
  ⟨fun a b c => charListLE_trans a.suffix.data b.suffix.data c.suffix.data⟩

/-- Claim C2: per group, the planner sorts the members by letter suffix ascending
(the sort is a permutation of the group, sorted under the lexicographic
suffix order) and numbers them `start_num, start_num + 1, ...` in that
order, where `start_num` is 2 when an unsuffixed base file exists on disk
(which is then itself planned as old suffix `""` → new suffix `01`) and 1
otherwise; the k-th sorted member's entry carries new suffix
`pad2 (start_num + k)`. -/
theorem plan_group_numbering (fs : List String) (subj ses mo b : String)
    (files : List FileInfo) (sample : FileInfo) (rest : List FileInfo)
    (hsorted : List.insertionSort suffixLE files = sample :: rest) :
    List.Sorted suffixLE (List.insertionSort suffixLE files) ∧
    (List.insertionSort suffixLE files).Perm files ∧
    (fs.contains (baseFilePath b sample) = true →
      ∃ e ∈ planGroup fs subj ses mo b files,
        e.old_path = baseFilePath b sample ∧ e.old_suffix = "" ∧ e.new_suffix = "01") ∧
    (∀ k f, (List.insertionSort suffixLE files)[k]? = some f →
      ∃ e ∈ planGroup fs subj ses mo b files,
        e.old_path = f.full_path ∧ e.old_suffix = f.suffix ∧
        e.new_suffix =
          pad2 ((if fs.contains (baseFilePath b sample) = true then 2 else 1) + k)) := by
  have hplan : planGroup fs subj ses mo b files =
      (if fs.contains (baseFilePath b sample) = true then
        baseEntries fs subj ses mo b sample
      else []) ++
        (List.enumFrom (if fs.contains (baseFilePath b sample) = true then 2 else 1)
          (sample :: rest)).flatMap (fileEntries fs subj ses mo b) := by
    unfold planGroup
    rw [hsorted]
  refine ⟨List.sorted_insertionSort suffixLE files, List.perm_insertionSort suffixLE files,
    ?_, ?_⟩
  · intro hbase
    refine ⟨(baseEntries fs subj ses mo b sample).head (by simp [baseEntries]), ?_, ?_⟩
    · rw [hplan, hbase, if_pos rfl]
      apply List.mem_append_left
      exact List.head_mem _
    · simp [baseEntries, baseFilePath]
  · intro k f hk
    rw [hsorted] at hk
    have henum : (List.enumFrom (if fs.contains (baseFilePath b sample) = true then 2 else 1)
        (sample :: rest))[k]? =
        some ((if fs.contains (baseFilePath b sample) = true then 2 else 1) + k, f) := by
      rw [List.getElem?_enumFrom, hk]
      rfl
    have hmem := List.getElem?_mem henum
    refine ⟨(fileEntries fs subj ses mo b
        ((if fs.contains (baseFilePath b sample) = true then 2 else 1) + k, f)).head
        (by simp [fileEntries]; split <;> simp), ?_, ?_⟩
    · rw [hplan]
      apply List.mem_append_right
      rw [List.mem_flatMap]
      exact ⟨_, hmem, List.head_mem _⟩
    · simp only [fileEntries]
      split <;> simp

/-- Concrete NamingIssue member with letter suffix `a`, for witnesses. -/
def wFileA : FileInfo :=
  ⟨"/d/sub-1_ses-2_T1wa.nii.gz", "sub-1_ses-2_T1wa.nii.gz", "a", "T1w"⟩

/-- Concrete NamingIssue member with letter suffix `b`, for witnesses. -/
def wFileB : FileInfo :=
  ⟨"/d/sub-1_ses-2_T1wb.nii.gz", "sub-1_ses-2_T1wb.nii.gz", "b", "T1w"⟩

/-- Concrete disk state for witnesses: the unsuffixed base file exists. -/
def wFs : List String := ["/d/sub-1_ses-2_T1w.nii.gz"]

/-- Claim C2 witness: on the concrete group `{b, a}` with an existing base file,
the base file is planned as suffix `01` and the letter-sorted first member
`a` as suffix `pad2 (2 + 0) = 02`. -/
theorem plan_group_numbering_witness :
    (∃ e ∈ planGroup wFs "011_S_0001" "ses-20220331" "anat" "T1w" [wFileB, wFileA],
      e.old_path = baseFilePath "T1w" wFileA ∧ e.old_suffix = "" ∧ e.new_suffix = "01") ∧
    (∃ e ∈ planGroup wFs "011_S_0001" "ses-20220331" "anat" "T1w" [wFileB, wFileA],
      e.old_path = wFileA.full_path ∧ e.old_suffix = wFileA.suffix ∧
      e.new_suffix =
        pad2 ((if wFs.contains (baseFilePath "T1w" wFileA) = true then 2 else 1) + 0)) :=
  ⟨(plan_group_numbering wFs "011_S_0001" "ses-20220331" "anat" "T1w" [wFileB, wFileA]
      wFileA [wFileB] (by rfl)).2.2.1 (by rfl),
   (plan_group_numbering wFs "011_S_0001" "ses-20220331" "anat" "T1w" [wFileB, wFileA]
      wFileA [wFileB] (by rfl)).2.2.2 0 wFileA (by rfl)⟩

/-- Concatenation of runs: each listed value repeated its paired number of
times, in order. -/
def runOf : List (String × Nat) → List String
  | [] => []
  | (v, r) :: rest => List.replicate r v ++ runOf rest

theorem letters_suffix_run (fs : List String) (subj ses mo b : String) :
    ∀ (l : List FileInfo) (i : Nat),
    ∃ reps : List Nat, (∀ r ∈ reps, r = 1 ∨ r = 2) ∧ reps.length = l.length ∧
      ((List.enumFrom i l).flatMap (fileEntries fs subj ses mo b)).map
        (fun e => e.new_suffix) = runOf (((List.range' i l.length).map pad2).zip reps)
  | [], _ => ⟨[], by simp, rfl, by simp [runOf]⟩
  | f :: l, i => by
    obtain ⟨reps, h12, hlen, hrun⟩ := letters_suffix_run fs subj ses mo b l (i + 1)
    by_cases hj : fs.contains (pyReplace f.full_path ".nii.gz" ".json") = true
    · refine ⟨2 :: reps, ?_, by simp [hlen], ?_⟩
      · intro r hr
        rcases List.mem_cons.mp hr with rfl | hr
        · exact Or.inr rfl
        · exact h12 r hr
      · rw [List.enumFrom_cons, List.flatMap_cons, List.map_append, hrun]
        simp only [List.length_cons, List.range'_succ, List.map_cons, List.zip_cons_cons,
          runOf]
        congr 1
        have hj2 : pyReplace f.full_path ".nii.gz" ".json" ∈ fs := by simpa using hj
        simp [fileEntries, hj, hj2, List.replicate]
    · refine ⟨1 :: reps, ?_, by simp [hlen], ?_⟩
      · intro r hr
        rcases List.mem_cons.mp hr with rfl | hr
        · exact Or.inl rfl
        · exact h12 r hr
      · rw [List.enumFrom_cons, List.flatMap_cons, List.map_append, hrun]
        simp only [List.length_cons, List.range'_succ, List.map_cons, List.zip_cons_cons,
          runOf]
        congr 1
        have hj2 : pyReplace f.full_path ".nii.gz" ".json" ∉ fs := by simpa using hj
        simp [fileEntries, hj, hj2, List.replicate]

/-- Claim C3: per group, the sequence of new suffixes in the plan is exactly the
zero-padded run `pad2 1, pad2 2, ..., pad2 N` in order — contiguous from
`01`, no gaps, no duplicated assignment — where `N` counts the group members
plus the pre-existing base file if any, and each value appears once for the
volume file plus once more when its metadata sidecar is also planned. -/
theorem plan_group_suffixes_contiguous (fs : List String) (subj ses mo b : String)
    (files : List FileInfo) (sample : FileInfo) (rest : List FileInfo)
    (hsorted : List.insertionSort suffixLE files = sample :: rest) :
    ∃ reps : List Nat, (∀ r ∈ reps, r = 1 ∨ r = 2) ∧
      reps.length =
        (if fs.contains (baseFilePath b sample) = true then files.length + 1
         else files.length) ∧
      (planGroup fs subj ses mo b files).map (fun e => e.new_suffix) =
        runOf (((List.range' 1 reps.length).map pad2).zip reps) := by
  have hlenfiles : rest.length + 1 = files.length := by
    have := (List.perm_insertionSort suffixLE files).length_eq
    rw [hsorted] at this
    simpa using this
  have hplan : planGroup fs subj ses mo b files =
      (if fs.contains (baseFilePath b sample) = true then
        baseEntries fs subj ses mo b sample
      else []) ++
        (List.enumFrom (if fs.contains (baseFilePath b sample) = true then 2 else 1)
          (sample :: rest)).flatMap (fileEntries fs subj ses mo b) := by
    unfold planGroup
    rw [hsorted]
  by_cases hbase : fs.contains (baseFilePath b sample) = true
  · obtain ⟨reps, h12, hlen, hrun⟩ :=
      letters_suffix_run fs subj ses mo b (sample :: rest) 2
    rw [List.length_cons, hlenfiles] at hlen
    refine ⟨(if fs.contains (pyReplace (baseFilePath b sample) ".nii.gz" ".json") = true
        then 2 else 1) :: reps, ?_, ?_, ?_⟩
    · intro r hr
      rcases List.mem_cons.mp hr with rfl | hr
      · split
        · exact Or.inr rfl
        · exact Or.inl rfl
      · exact h12 r hr
    · rw [if_pos hbase, List.length_cons, hlen]
    · rw [hplan, if_pos hbase, if_pos hbase, List.map_append, hrun,
        List.length_cons, hlenfiles, List.length_cons, hlen, List.range'_succ,
        List.map_cons, List.zip_cons_cons]
      simp only [runOf]
      congr 1
      have h01 : pad2 1 = "01" := by rfl
      rw [h01]
      simp only [baseEntries, baseFilePath, subjectSession]
      split
      · split <;> simp [List.replicate]
      · split <;> simp [List.replicate]
  · obtain ⟨reps, h12, hlen, hrun⟩ :=
      letters_suffix_run fs subj ses mo b (sample :: rest) 1
    rw [List.length_cons, hlenfiles] at hlen
    refine ⟨reps, h12, ?_, ?_⟩
    · rw [if_neg hbase, hlen]
    · rw [hplan, if_neg hbase, if_neg hbase, List.nil_append, hrun]
      rw [List.length_cons, hlenfiles, hlen]

/-- Claim C3 witness: the contiguity invariant evaluated on the concrete group
`{b, a}` with an existing base file. -/
theorem plan_group_suffixes_contiguous_witness :
    ∃ reps : List Nat, (∀ r ∈ reps, r = 1 ∨ r = 2) ∧
      reps.length =
        (if wFs.contains (baseFilePath "T1w" wFileA) = true then
          ([wFileB, wFileA] : List FileInfo).length + 1
         else ([wFileB, wFileA] : List FileInfo).length) ∧
      (planGroup wFs "011_S_0001" "ses-20220331" "anat" "T1w" [wFileB, wFileA]).map
          (fun e => e.new_suffix) =
        runOf (((List.range' 1 reps.length).map pad2).zip reps) :=
  plan_group_suffixes_contiguous wFs "011_S_0001" "ses-20220331" "anat" "T1w"
    [wFileB, wFileA] wFileA [wFileB] (by rfl)

/-- A block of the rename plan is a volume entry alone, or a volume entry
followed by exactly its sidecar entry with the identical suffix
substitution. -/
def PairedBlock (fs : List String) (blk : List RenameEntry) : Prop :=
  ∃ v : RenameEntry,
    blk.head? = some v ∧
    ((fs.contains (pyReplace v.old_path ".nii.gz" ".json") = false ∧ blk = [v]) ∨
     (fs.contains (pyReplace v.old_path ".nii.gz" ".json") = true ∧
      ∃ j, blk = [v, j] ∧
        j.old_path = pyReplace v.old_path ".nii.gz" ".json" ∧
        j.new_path = pyReplace v.new_path ".nii.gz" ".json" ∧
        j.old_suffix = v.old_suffix ∧ j.new_suffix = v.new_suffix))

theorem fileEntries_paired (fs : List String) (subj ses mo b : String) (p : Nat × FileInfo) :
    PairedBlock fs (fileEntries fs subj ses mo b p) := by
  cases hj : fs.contains (pyReplace p.2.full_path ".nii.gz" ".json") with
  | false =>
    simp only [PairedBlock, fileEntries, hj, Bool.false_eq_true, if_false]
    exact ⟨_, rfl, Or.inl ⟨hj, rfl⟩⟩
  | true =>
    simp only [PairedBlock, fileEntries, hj, if_true]
    exact ⟨_, rfl, Or.inr ⟨hj, _, rfl, rfl, rfl, rfl, rfl⟩⟩

theorem baseEntries_paired (fs : List String) (subj ses mo b : String) (sample : FileInfo) :
    PairedBlock fs (baseEntries fs subj ses mo b sample) := by
  cases hj : fs.contains (pyReplace (pathJoin (pathParent sample.full_path)
      (subjectSession b (pathName sample.full_path) ++ "_" ++ b ++ ".nii.gz"))
      ".nii.gz" ".json") with
  | false =>
    simp only [PairedBlock, baseEntries, hj, Bool.false_eq_true, if_false]
    exact ⟨_, rfl, Or.inl ⟨hj, rfl⟩⟩
  | true =>
    simp only [PairedBlock, baseEntries, hj, if_true]
    exact ⟨_, rfl, Or.inr ⟨hj, _, rfl, rfl, rfl, rfl, rfl⟩⟩

/-- Claim C7: the plan of a group decomposes into per-volume-file blocks: each
block starts with the volume entry, and contains exactly one additional
entry — the paired sidecar entry, with the identical old-path, new-path,
old-suffix and new-suffix substitution applied at the `.json` path — exactly
when the sidecar file exists on disk. -/
theorem plan_group_sidecar_pairing (fs : List String) (subj ses mo b : String)
    (files : List FileInfo) :
    ∃ blocks : List (List RenameEntry),
      planGroup fs subj ses mo b files = blocks.flatten ∧
      ∀ blk ∈ blocks, PairedBlock fs blk := by
  cases hs : List.insertionSort suffixLE files with
  | nil =>
    refine ⟨[], ?_, by simp⟩
    unfold planGroup
    rw [hs]
    rfl
  | cons sample rest =>
    have hplan : planGroup fs subj ses mo b files =
        (if fs.contains (baseFilePath b sample) = true then
          baseEntries fs subj ses mo b sample
        else []) ++
          (List.enumFrom (if fs.contains (baseFilePath b sample) = true then 2 else 1)
            (sample :: rest)).flatMap (fileEntries fs subj ses mo b) := by
      unfold planGroup
      rw [hs]
    refine ⟨(if fs.contains (baseFilePath b sample) = true then
        [baseEntries fs subj ses mo b sample] else []) ++
      (List.enumFrom (if fs.contains (baseFilePath b sample) = true then 2 else 1)
        (sample :: rest)).map (fileEntries fs subj ses mo b), ?_, ?_⟩
    · rw [hplan, List.flatten_append, List.flatMap_def]
      congr 1
      split
      · simp
      · simp
    · intro blk hblk
      rcases List.mem_append.mp hblk with hb1 | hb2
      · have hbeq : blk = baseEntries fs subj ses mo b sample := by
          rcases List.mem_ite_nil_right.mp hb1 with ⟨-, h⟩
          simpa using h
        rw [hbeq]
        exact baseEntries_paired fs subj ses mo b sample
      · obtain ⟨p, _, hpe⟩ := List.mem_map.mp hb2
        rw [← hpe]
        exact fileEntries_paired fs subj ses mo b p

theorem not_mem_run_fs (x : String) : ∀ (plan : List RenameEntry) (st : ExecResult),
    x ∉ st.fs → (∀ e ∈ plan, e.new_path ≠ x) →
    x ∉ (plan.foldl (execStep false) st).fs
  | [], _, hx, _ => hx
  | e :: plan, st, hx, hnew => by
    rw [List.foldl_cons]
    refine not_mem_run_fs x plan (execStep false st e) ?_ fun e2 he2 => hnew e2 (List.mem_cons_of_mem _ he2)
    unfold execStep
    split
    · exact hx
    · split
      · exact hx
      · split
        · intro hmem
          rcases List.mem_append.mp hmem with h | h
          · exact hx (List.mem_of_mem_erase h)
          · exact hnew e (List.mem_cons_self _ _) (List.mem_singleton.mp h).symm
        · exact hx


theorem execStep_src_missing (dry : Bool) (st : ExecResult) (e : RenameEntry)
    (h : st.fs.contains e.old_path = false) :
    execStep dry st e =
      { st with errors := st.errors ++ ["Source file does not exist: " ++ e.old_path],
                error_count := st.error_count + 1 } := by
  have h' : e.old_path ∉ st.fs := by simpa using h
  simp [execStep, h']

theorem execStep_tgt_exists (dry : Bool) (st : ExecResult) (e : RenameEntry)
    (h1 : st.fs.contains e.old_path = true) (h2 : st.fs.contains e.new_path = true) :
    execStep dry st e =
      { st with errors := st.errors ++ ["Target file already exists: " ++ e.new_path],
                error_count := st.error_count + 1 } := by
  have h1' : e.old_path ∈ st.fs := by simpa using h1
  have h2' : e.new_path ∈ st.fs := by simpa using h2
  simp [execStep, h1', h2']

theorem execStep_move (st : ExecResult) (e : RenameEntry)
    (h1 : st.fs.contains e.old_path = true) (h2 : st.fs.contains e.new_path = false) :
    execStep false st e =
      { st with fs := st.fs.erase e.old_path ++ [e.new_path],
                success_count := st.success_count + 1 } := by
  have h1' : e.old_path ∈ st.fs := by simpa using h1
  have h2' : e.new_path ∉ st.fs := by simpa using h2
  simp [execStep, h1', h2']

theorem execStep_error_count_ge (dry : Bool) (st : ExecResult) (e : RenameEntry) :
    st.error_count ≤ (execStep dry st e).error_count := by
  unfold execStep
  split
  · exact Nat.le_succ _
  · split
    · exact Nat.le_succ _
    · split
      · exact le_refl _
      · exact le_refl _

theorem error_count_le_run : ∀ (plan : List RenameEntry) (dry : Bool) (st : ExecResult),
    st.error_count ≤ (plan.foldl (execStep dry) st).error_count
  | [], _, _ => le_refl _
  | e :: plan, dry, st =>
    le_trans (execStep_error_count_ge dry st e) (error_count_le_run plan dry _)

theorem all_success_olds_gone : ∀ (plan : List RenameEntry) (st : ExecResult),
    (plan.foldl (execStep false) st).error_count = st.error_count →
    st.fs.Nodup →
    (∀ e ∈ plan, ∀ e2 ∈ plan, e.new_path ≠ e2.old_path) →
    (∀ e ∈ plan, e.old_path ∉ (plan.foldl (execStep false) st).fs) ∧
      (plan.foldl (execStep false) st).fs.Nodup
  | [], _, _, hnd, _ => ⟨by simp, hnd⟩
  | e :: plan, st, herr, hnd, hdisj => by
    rw [List.foldl_cons] at herr ⊢
    by_cases h1 : st.fs.contains e.old_path = true
    · by_cases h2 : st.fs.contains e.new_path = true
      · exfalso
        rw [execStep_tgt_exists false st e h1 h2] at herr
        have := error_count_le_run plan false
          { st with errors := st.errors ++ ["Target file already exists: " ++ e.new_path],
                    error_count := st.error_count + 1 }
        simp only at this
        omega
      · have h2f : st.fs.contains e.new_path = false := by
          simpa using h2
        rw [execStep_move st e h1 h2f] at herr ⊢
        have hnewmem : e.new_path ∉ st.fs := by
          simpa using h2f
        have hnd2 : (st.fs.erase e.old_path ++ [e.new_path]).Nodup := by
          rw [List.nodup_append]
          refine ⟨hnd.erase _, List.nodup_singleton _, ?_⟩
          intro x hx hx2
          rw [List.mem_singleton] at hx2
          subst hx2
          exact hnewmem (List.mem_of_mem_erase hx)
        obtain ⟨ih1, ih2⟩ := all_success_olds_gone plan
          { st with fs := st.fs.erase e.old_path ++ [e.new_path],
                    success_count := st.success_count + 1 }
          herr hnd2
          (fun a ha a2 ha2 => hdisj a (List.mem_cons_of_mem _ ha) a2 (List.mem_cons_of_mem _ ha2))
        refine ⟨?_, ih2⟩
        intro e2 he2
        rcases List.mem_cons.mp he2 with rfl | he2
        · refine not_mem_run_fs e2.old_path plan _ ?_ ?_
          · intro hmem
            rcases List.mem_append.mp hmem with hmem | hmem
            · exact ((hnd.mem_erase_iff).mp hmem).1 rfl
            · exact hdisj e2 (List.mem_cons_self _ _) e2 (List.mem_cons_self _ _)
                (List.mem_singleton.mp hmem).symm
          · intro a ha
            exact hdisj a (List.mem_cons_of_mem _ ha) e2 (List.mem_cons_self _ _)
        · exact ih1 e2 he2
    · exfalso
      have h1f : st.fs.contains e.old_path = false := by simpa using h1
      rw [execStep_src_missing false st e h1f] at herr
      have := error_count_le_run plan false
        { st with errors := st.errors ++ ["Source file does not exist: " ++ e.old_path],
                  error_count := st.error_count + 1 }
      simp only at this
      omega

theorem run_all_source_missing : ∀ (plan : List RenameEntry) (st : ExecResult),
    (∀ e ∈ plan, e.old_path ∉ st.fs) →
    plan.foldl (execStep false) st =
      { st with error_count := st.error_count + plan.length,
                errors := st.errors ++
                  plan.map (fun e => "Source file does not exist: " ++ e.old_path) }
  | [], st, _ => by simp
  | e :: plan, st, h => by
    rcases st with ⟨sfs, ssc, sec, serrs⟩
    rw [List.foldl_cons]
    have h1 : sfs.contains e.old_path = false := by
      simpa using h e (List.mem_cons_self _ _)
    rw [execStep_src_missing false ⟨sfs, ssc, sec, serrs⟩ e h1]
    rw [run_all_source_missing plan
      ⟨sfs, ssc, sec + 1, serrs ++ ["Source file does not exist: " ++ e.old_path]⟩
      (fun a ha => h a (List.mem_cons_of_mem _ ha))]
    simp [List.append_assoc]
    omega

/-- Concrete one-entry rename plan for the C1 analysis. -/
def cxEntry : RenameEntry :=
  { old_path := "/d/a.nii.gz", new_path := "/d/b.nii.gz",
    old_filename := "a.nii.gz", new_filename := "b.nii.gz",
    subject := "s", session := "ses", modality := "anat", base_name := "T1w",
    old_suffix := "a", new_suffix := "01" }

/-- Claim C1 counterexample: after a fully successful apply of the one-entry plan
`[cxEntry]`, re-running the identical plan records a "Source file does not
exist" error for the entry — not the "Target file already exists" error the
claim asserts — because the executor checks the source first and the source
was moved away by the first run. -/
theorem reapply_error_kind_cx :
    (execute_renames [cxEntry] false ["/d/a.nii.gz"]).error_count = 0 ∧
    (execute_renames [cxEntry] false ["/d/a.nii.gz"]).success_count = 1 ∧
    (execute_renames [cxEntry] false
        (execute_renames [cxEntry] false ["/d/a.nii.gz"]).fs).success_count = 0 ∧
    (execute_renames [cxEntry] false
        (execute_renames [cxEntry] false ["/d/a.nii.gz"]).fs).errors =
      ["Source file does not exist: /d/a.nii.gz"] ∧
    "Target file already exists: /d/b.nii.gz" ∉
      (execute_renames [cxEntry] false
        (execute_renames [cxEntry] false ["/d/a.nii.gz"]).fs).errors := by
  decide

/-- Claim C1 (amended): re-applying an identical plan after a fully successful
apply is a safe no-op — the executor applies nothing, yields zero successes
and one error per entry, and leaves the filesystem unchanged — but the per
entry error it records is "Source file does not exist" (the sources were
all moved away by the first run), not "target exists".  The hypotheses state
that the starting filesystem has no duplicate paths and that the plan's
destination paths never coincide with its source paths, which holds for the
letter-to-number plans this executor consumes. -/
theorem reapply_plan_safe_noop (plan : List RenameEntry) (fs0 : List String)
    (hnd : fs0.Nodup)
    (hdisj : ∀ e ∈ plan, ∀ e2 ∈ plan, e.new_path ≠ e2.old_path)
    (hok : (execute_renames plan false fs0).error_count = 0) :
    execute_renames plan false (execute_renames plan false fs0).fs =
      { fs := (execute_renames plan false fs0).fs,
        success_count := 0,
        error_count := plan.length,
        errors := plan.map (fun e => "Source file does not exist: " ++ e.old_path) } := by
  obtain ⟨habs, -⟩ := all_success_olds_gone plan ⟨fs0, 0, 0, []⟩ hok hnd hdisj
  have hrun := run_all_source_missing plan
    ⟨(execute_renames plan false fs0).fs, 0, 0, []⟩ habs
  rw [execute_renames, hrun]
  simp

/-- Claim C1 witness: the amended statement evaluated on the concrete one-entry
plan. -/
theorem reapply_plan_safe_noop_witness :
    execute_renames [cxEntry] false (execute_renames [cxEntry] false ["/d/a.nii.gz"]).fs =
      { fs := (execute_renames [cxEntry] false ["/d/a.nii.gz"]).fs,
        success_count := 0,
        error_count := ([cxEntry] : List RenameEntry).length,
        errors := [cxEntry].map (fun e => "Source file does not exist: " ++ e.old_path) } :=
  reapply_plan_safe_noop [cxEntry] ["/d/a.nii.gz"] (by decide) (by decide) (by decide)

/-- Claim C8: an entry whose source is missing or whose destination already exists
is recorded as an error — with the source check performed first — the
filesystem and the success count are untouched by it, and the executor
continues with the remaining entries of the plan from that state. -/
theorem precondition_failure_skips_entry (p1 : List RenameEntry) (e : RenameEntry)
    (p2 : List RenameEntry) (dry : Bool) (fs0 : List String)
    (h : (execute_renames p1 dry fs0).fs.contains e.old_path = false ∨
         (execute_renames p1 dry fs0).fs.contains e.new_path = true) :
    execute_renames (p1 ++ e :: p2) dry fs0 =
      p2.foldl (execStep dry)
        { execute_renames p1 dry fs0 with
          error_count := (execute_renames p1 dry fs0).error_count + 1,
          errors := (execute_renames p1 dry fs0).errors ++
            [if (execute_renames p1 dry fs0).fs.contains e.old_path = false
             then "Source file does not exist: " ++ e.old_path
             else "Target file already exists: " ++ e.new_path] } := by
  unfold execute_renames at h ⊢
  rw [List.foldl_append, List.foldl_cons]
  congr 1
  rcases h with h | h
  · rw [execStep_src_missing dry _ e h, if_pos h]
  · by_cases h1 : (List.foldl (execStep dry) ⟨fs0, 0, 0, []⟩ p1).fs.contains e.old_path = false
    · rw [execStep_src_missing dry _ e h1, if_pos h1]
    · have h1t : (List.foldl (execStep dry) ⟨fs0, 0, 0, []⟩ p1).fs.contains e.old_path = true := by
        simpa using h1
      rw [execStep_tgt_exists dry _ e h1t h, if_neg h1]

/-- Claim C8 witness: with an empty prefix, an entry whose source is missing is
reported and skipped, and the remaining one-entry rest of the plan is still
executed from that state. -/
theorem precondition_failure_skips_entry_witness :
    execute_renames ([] ++ cxEntry :: [cxEntry]) false [] =
      [cxEntry].foldl (execStep false)
        { execute_renames [] false [] with
          error_count := (execute_renames [] false []).error_count + 1,
          errors := (execute_renames [] false []).errors ++
            [if (execute_renames [] false []).fs.contains cxEntry.old_path = false
             then "Source file does not exist: " ++ cxEntry.old_path
             else "Target file already exists: " ++ cxEntry.new_path] } :=
  precondition_failure_skips_entry [] cxEntry [cxEntry] false [] (Or.inl (by decide))
end ADNI2BIDS
